import Mathlib

/-!
Verification of the batch nearest-centroid assignment engine
(`src/clustering/src/clustering.c`) against its natural-language
specification.

Embedding conventions:
* IEEE-754 `float`/`double` values are idealized as exact rationals (`ℚ`).
  All concrete inputs appearing in the verified instances are chosen so that
  the C program's floating-point computation is exact at them, hence agrees
  with the rational model on every comparison the engine makes (sums of
  squares of small integers, exact zero distances, and powers of two around
  `FLT_MAX` where the float computation overflows to `+inf` while the exact
  value is `≥ fltMax`, so the comparison `d < FLT_MAX` decides identically
  in both).
* A possibly-NaN float distance is `Option ℚ`; `none` is NaN, and the C
  comparison `d < mindist` is `fltLt`, which is `false` whenever `d` is NaN.
* `sqrt` is modelled by `ratSqrt`, a kernel-evaluable integer/rational square
  root proved to agree with Mathlib's `Rat.sqrt` on all rationals whose
  numerator and denominator are below `4 ^ 132` (every value arising here);
  it is exact on perfect squares, where IEEE `sqrt` is also exact.
* `size_t` is 64 bits; storing a `size_t` into an `npy_int32` slot truncates
  to 32 bits, modelled by `toInt32`.
* `malloc` success is an explicit oracle (`alloc_a`, `alloc_b`); the scratch
  lifecycle is tracked by the `allocatedBuffers`/`liveBuffers` fields.
-/

namespace Clustering

set_option maxRecDepth 40000

/-! ## A kernel-evaluable square root -/

/-- One refinement step of the binary integer square root: given `n` and the
square root `r` of `n / 4`, produce the square root of `n`. -/
def isqrtStep (n r : ℕ) : ℕ :=
  if (2 * r + 1) * (2 * r + 1) ≤ n then 2 * r + 1 else 2 * r

/-- Fuel-driven binary integer square root: `isqrtAux f n` is `Nat.sqrt n`
whenever `n < 4 ^ f` (`isqrtAux_eq`). Structurally recursive on the fuel so
that the kernel can evaluate it on concrete inputs (Mathlib's `Nat.sqrt` is
defined by well-founded recursion and does not reduce). -/
def isqrtAux : ℕ → ℕ → ℕ
  | 0, _ => 0
  | f + 1, n => isqrtStep n (isqrtAux f (n / 4))

/-- Kernel-evaluable integer square root; agrees with `Nat.sqrt` below
`4 ^ 132` (`isqrt_eq_sqrt`), a bound above every quantity computed in
this development (the largest is `FLT_MAX² < 2 ^ 256 < 4 ^ 132`). -/
def isqrt (n : ℕ) : ℕ := isqrtAux 132 n

/-- Kernel-evaluable model of the C library's `sqrt` on exact rationals;
mirrors Mathlib's `Rat.sqrt` (integer square root of the numerator over
integer square root of the denominator) and agrees with it on all inputs
occurring here (`ratSqrt_eq_sqrt`). Exact on perfect squares, where IEEE
`sqrt` is exact as well. -/
def ratSqrt (q : ℚ) : ℚ := mkRat (isqrt q.num.toNat) (isqrt q.den)

/-! ## Float model constants and primitives -/

/-- `FLT_MAX`, the largest finite IEEE-754 single-precision value
`(2^24 - 1) * 2^104`, as an exact rational (written as a numeral so that the
kernel can compute with it; `fltMax_eq` checks the value). -/
def fltMax : ℚ := 340282346638528859811704183484516925440

/-- `(size_t)(-1)`, the initial value of `argmin` in `c_assign`, on the
64-bit targets the module is built for. -/
def sizeMax : ℕ := 18446744073709551615

/-- Storing a `size_t` value into an `npy_int32` output slot
(`dtraj[i] = argmin;`): two's-complement truncation to the low 32 bits. -/
def toInt32 (n : ℕ) : ℤ :=
  if n % 4294967296 < 2147483648 then ((n % 4294967296 : ℕ) : ℤ)
  else ((n % 4294967296 : ℕ) : ℤ) - 4294967296

/-- A `float` distance value that may be NaN: `none` is NaN, `some q` a
finite (or overflowed-to-`inf`, represented by a rational `≥ fltMax`)
value. -/
abbrev FVal := Option ℚ

/-- The C comparison `d < mindist` of `c_assign`'s inner loop: any comparison
against NaN is false; otherwise exact rational comparison. -/
def fltLt (d : FVal) (m : ℚ) : Bool :=
  match d with
  | none => false
  | some x => decide (x < m)

/-- `&buf[i*dim]`, viewed as a `dim`-length vector (row `i` of a row-major
flat array). -/
def frameOf (buf : List ℚ) (dim i : ℕ) : List ℚ :=
  (buf.drop (i * dim)).take dim

/-! ## Metric Strategy -/

/-- `euclidean_distance` (clustering.c:27-37): `sum = 0.0; for i < n:
sum += (a[i]-b[i])*(a[i]-b[i]); return sqrt(sum);` — modelled in exact
rational arithmetic. In the C program the per-component difference and its
square are computed in single precision (only the accumulator `sum` is
`double`), so components of magnitude near `2^64` and above can overflow the
square (or, near `2^127`, already the difference) to `+inf`. The exact model
has no infinities; every concrete instance verified below is chosen so that
each comparison `d < mindist` decides identically in the program and in the
model: either all values involved are exactly representable and exactly
computed in `float`, or the program's value is `+inf` where the model's
exact value is `≥ fltMax`, and both fail the strict comparison against
`FLT_MAX`. -/
def euclidean_distance (a b : List ℚ) (n : ℕ) : ℚ :=
  ratSqrt ((List.range n).foldl
    (fun sum i => sum + (a.getD i 0 - b.getD i 0) * (a.getD i 0 - b.getD i 0)) 0)

/-- Modelled from the spec: the external geometry library's
`inplace_center_and_trace_atom_major` (missing from `src/`, specified in
§1/§4.1 of the spec as an opaque collaborator) translates an atom-major
point set (`n_atoms` consecutive 3-vectors) to its centroid and returns the
pre-translation trace of its second-moment matrix (the sum of the squared
coordinates). Given the buffer contents it returns the centered contents
together with that trace. -/
def inplace_center_and_trace_atom_major (buf : List ℚ) (n_atoms : ℕ) : List ℚ × ℚ :=
  ((List.range (3 * n_atoms)).map
      (fun t => buf.getD t 0 -
        ((List.range n_atoms).foldl (fun s k => s + buf.getD (3 * k + t % 3) 0) 0) / n_atoms),
   (List.range (3 * n_atoms)).foldl (fun s t => s + buf.getD t 0 * buf.getD t 0) 0)

/-- The shape of the external geometry library's `msd_atom_major`: from two
centered point sets (with their atom counts and pre-centering traces),
the minimal mean squared deviation under optimal rigid superposition.
The engine treats it as an opaque numeric primitive, so the development is
parameterized over it. -/
abbrev MsdFn := ℕ → ℕ → List ℚ → List ℚ → ℚ → ℚ → ℚ

/-- The tail of `minRMSD_distance` after the two `memcpy`s: center both
scratch buffers, record their traces, call `msd_atom_major`, take the square
root. Reads the *current* scratch contents — this is the part of the C
function whose inputs a concurrent writer to the shared scratch can change
(see the parallel machine below). -/
def minRMSD_core (msd : MsdFn) (bufA bufB : List ℚ) (n : ℕ) : ℚ :=
  ratSqrt (msd (n / 3) (n / 3)
    (inplace_center_and_trace_atom_major bufA (n / 3)).1
    (inplace_center_and_trace_atom_major bufB (n / 3)).1
    (inplace_center_and_trace_atom_major bufA (n / 3)).2
    (inplace_center_and_trace_atom_major bufB (n / 3)).2)

/-- `minRMSD_distance` (clustering.c:39-51): `memcpy` the two read-only
inputs into the scratch buffers (`a.take n`, `b.take n`), center each copy
recording its trace, call `msd_atom_major` on the centered copies, return
`sqrt(msd)`. The result is returned together with the final contents of the
two scratch buffers. -/
def minRMSD_distance (msd : MsdFn) (a b : List ℚ) (n : ℕ) : ℚ × List ℚ × List ℚ :=
  (minRMSD_core msd (a.take n) (b.take n) n,
   (inplace_center_and_trace_atom_major (a.take n) (n / 3)).1,
   (inplace_center_and_trace_atom_major (b.take n) (n / 3)).1)

/-! ## Assignment Engine (sequential semantics of the frame loop) -/

/-- One iteration of `c_assign`'s inner loop (clustering.c:99-103):
`d = distance(...); if (d < mindist) { mindist = d; argmin = j; }` on the
state `(mindist, argmin)`. -/
def scanStep (dist : ℕ → FVal) (s : ℚ × ℕ) (j : ℕ) : ℚ × ℕ :=
  if fltLt (dist j) s.1 then ((dist j).getD s.1, j) else s

/-- The center scan of `c_assign` for one frame (clustering.c:96-104):
`mindist = FLT_MAX; argmin = (size_t)-1;` then fold `scanStep` over
`j = 0 .. ncenters - 1`. -/
def scanCenters (dist : ℕ → FVal) (ncenters : ℕ) : ℚ × ℕ :=
  (List.range ncenters).foldl (scanStep dist) (fltMax, sizeMax)

/-- The output writes of `c_assign`'s frame loop: each frame `i < nframes`
gets `dtraj[i] = argmin` for its own scan (clustering.c:96-105). -/
def assignOut (dist : ℕ → ℕ → FVal) (dtraj : List ℤ) (nframes ncenters : ℕ) : List ℤ :=
  (List.range nframes).foldl
    (fun out i => out.set i (toInt32 (scanCenters (dist i) ncenters).2)) dtraj

/-- Return codes of `c_assign` (`ASSIGN_SUCCESS`, `ASSIGN_ERR_INVALID_METRIC`,
`ASSIGN_ERR_NO_MEMORY`). -/
inductive AssignRet where
  | success
  | errInvalidMetric
  | errNoMemory
deriving DecidableEq

/-- Observable outcome of a `c_assign` call: the return code, the output
buffer, how many scratch buffers were allocated during the call, and how
many were still live when it returned (the `error:` label frees both
pointers, `free(NULL)` being a no-op). -/
structure AssignOutcome where
  ret : AssignRet
  dtraj : List ℤ
  allocatedBuffers : ℕ
  liveBuffers : ℕ
deriving DecidableEq

/-- The distance the resolved `distance` function pointer computes between
frame `i` and center `j` (case over the two metric names, which is how
`c_assign` resolves `metric`). -/
def metricDist (msd : MsdFn) (metric : String) (chunk centers : List ℚ) (dim i j : ℕ) : ℚ :=
  if metric = "euclidean" then
    euclidean_distance (frameOf chunk dim i) (frameOf centers dim j) dim
  else
    (minRMSD_distance msd (frameOf chunk dim i) (frameOf centers dim j) dim).1

/-- `c_assign` (clustering.c:53-113): resolve the metric by `strcmp` chain
(unknown name → `ASSIGN_ERR_INVALID_METRIC`, nothing written); for
`"minRMSD"` allocate the two scratch buffers (`alloc_a`/`alloc_b` are the
success of the two `malloc`s; failure → `ASSIGN_ERR_NO_MEMORY`, nothing
written, both pointers freed); then run the frame loop and write one index
per frame. This is the sequential (one-frame-at-a-time) semantics of the
OpenMP loop, in which each distance call reads only its own freshly copied
scratch; the shared-scratch parallel semantics is modelled separately
below. -/
def c_assign (msd : MsdFn) (chunk centers : List ℚ) (dtraj : List ℤ) (metric : String)
    (nframes ncenters dim : ℕ) (n_threads : ℕ) (alloc_a alloc_b : Bool) : AssignOutcome :=
  if metric = "euclidean" then
    { ret := .success
      dtraj := assignOut
        (fun i j => some (euclidean_distance (frameOf chunk dim i) (frameOf centers dim j) dim))
        dtraj nframes ncenters
      allocatedBuffers := 0
      liveBuffers := 0 }
  else if metric = "minRMSD" then
    if alloc_a && alloc_b then
      { ret := .success
        dtraj := assignOut
          (fun i j => some ((minRMSD_distance msd (frameOf chunk dim i) (frameOf centers dim j) dim).1))
          dtraj nframes ncenters
        allocatedBuffers := 2
        liveBuffers := 0 }
    else
      { ret := .errNoMemory
        dtraj := dtraj
        allocatedBuffers := (if alloc_a then 1 else 0) + (if alloc_b then 1 else 0)
        liveBuffers := 0 }
  else
    { ret := .errInvalidMetric
      dtraj := dtraj
      allocatedBuffers := 0
      liveBuffers := 0 }

/-! ## The OpenMP parallel region as a shared-memory interleaving machine

`c_assign` allocates ONE pair of scratch buffers (`buffer_a`, `buffer_b`)
before the parallel region (clustering.c:69-70) and passes the same two
pointers to every worker's `distance` call (clustering.c:100); the loop
variables `i, j, argmin, mindist, d` are `private` to each worker (the
`omp for private(...)` clause, clustering.c:96), and each worker owns the
output slots of its own frames. The machine below makes the resulting
shared-memory execution explicit for the minRMSD metric: each worker's
per-frame work is a sequence of atomic actions, and a schedule interleaves
the workers' actions. `load` is `minRMSD_distance`'s pair of `memcpy`s into
the shared scratch; `compute` is the rest of that call (centering and
`msd_atom_major`), reading whatever the shared scratch holds at that moment.
A schedule in which every `load` is immediately followed by the same
worker's `compute` reproduces the sequential semantics; OpenMP provides no
such guarantee for shared buffers. -/

/-- One atomic action of a worker in the parallel region (minRMSD metric):
begin a frame (reset the private `mindist`/`argmin` to
`FLT_MAX`/`(size_t)-1`), copy frame `i` and center `j` into the shared
scratch pair, run the distance computation on the current scratch contents
and fold it into the private registers for center `j`, or store the private
`argmin` into the output slot of frame `i`. -/
inductive PAct where
  | beginFrame : PAct
  | load : ℕ → ℕ → PAct
  | compute : ℕ → PAct
  | store : ℕ → PAct

/-- Shared-memory state of the parallel region: the single shared scratch
pair, the output buffer, each worker's private `(mindist, argmin)`
registers, and each worker's remaining actions. -/
structure PState where
  scratchA : List ℚ
  scratchB : List ℚ
  dtraj : List ℤ
  regs : List (ℚ × ℕ)
  progs : List (List PAct)

/-- Execute one action of worker `t` (no-op if its program is finished). -/
def pStep (msd : MsdFn) (chunk centers : List ℚ) (dim : ℕ) (s : PState) (t : ℕ) : PState :=
  match s.progs.getD t [] with
  | [] => s
  | act :: rest =>
    let progs := s.progs.set t rest
    match act with
    | .beginFrame => { s with regs := s.regs.set t (fltMax, sizeMax), progs := progs }
    | .load i j =>
        { s with scratchA := frameOf chunk dim i
                 scratchB := frameOf centers dim j
                 progs := progs }
    | .compute j =>
        let d := minRMSD_core msd s.scratchA s.scratchB dim
        let r := s.regs.getD t (fltMax, sizeMax)
        { s with regs := s.regs.set t (if fltLt (some d) r.1 then (d, j) else r)
                 progs := progs }
    | .store i =>
        { s with dtraj := s.dtraj.set i (toInt32 (s.regs.getD t (fltMax, sizeMax)).2)
                 progs := progs }

/-- Run a schedule: at each step the named worker executes its next action. -/
def pRun (msd : MsdFn) (chunk centers : List ℚ) (dim : ℕ) (sched : List ℕ) (s : PState) :
    PState :=
  sched.foldl (pStep msd chunk centers dim) s

/-- The OpenMP `schedule(static, 10)` map: frame `i` belongs to chunk
`i / 10`, and chunks go to the `n_threads` workers round-robin. -/
def workerFrames (n_threads nframes t : ℕ) : List ℕ :=
  (List.range nframes).filter (fun i => i / 10 % n_threads = t)

/-- The action sequence of the minRMSD loop body for one frame. -/
def frameProg (ncenters i : ℕ) : List PAct :=
  .beginFrame :: ((List.range ncenters).flatMap (fun j => [.load i j, .compute j])) ++ [.store i]

/-- Initial state of the parallel region: one shared scratch pair (malloc'd;
contents unspecified, zeroes here), the caller's output buffer, one private
register pair per worker, and each worker's action list over its frames. -/
def pInit (n_threads nframes ncenters dim : ℕ) (dtraj : List ℤ) : PState :=
  { scratchA := List.replicate dim 0
    scratchB := List.replicate dim 0
    dtraj := dtraj
    regs := List.replicate n_threads (fltMax, sizeMax)
    progs := (List.range n_threads).map
      (fun t => (workerFrames n_threads nframes t).flatMap (frameProg ncenters)) }

/-! ## Concrete minRMSD data for the shared-scratch executions -/

/-- Modelled from the spec: a concrete instance of the external
`msd_atom_major` for the test data below — the mean of the squared
coordinate differences of the two centered point sets. For collinear,
axis-aligned, same-orientation point sets (as all the centered test vectors
below are) the optimal rigid superposition is the identity, so this is
exactly the minimal mean squared deviation the spec describes. -/
def msdModel : MsdFn := fun n_real _ a b _ _ =>
  ((List.range (3 * n_real)).foldl
    (fun s t => s + (a.getD t 0 - b.getD t 0) * (a.getD t 0 - b.getD t 0)) 0) / n_real

/-- 11 frames of dimension 6 (two atoms on the x-axis, already centered):
frames 0–9 are `[5,0,0,-5,0,0]`, frame 10 is `[1,0,0,-1,0,0]`. With chunk
size 10 and two workers, worker 0 gets frames 0–9 and worker 1 gets
frame 10. -/
def chunkEx : List ℚ :=
  [5, 0, 0, -5, 0, 0, 5, 0, 0, -5, 0, 0, 5, 0, 0, -5, 0, 0, 5, 0, 0, -5, 0, 0,
   5, 0, 0, -5, 0, 0, 5, 0, 0, -5, 0, 0, 5, 0, 0, -5, 0, 0, 5, 0, 0, -5, 0, 0,
   5, 0, 0, -5, 0, 0, 5, 0, 0, -5, 0, 0, 1, 0, 0, -1, 0, 0]

/-- Two centers of dimension 6: `[1,0,0,-1,0,0]` and `[3,0,0,-3,0,0]`.
RMSD distances (with `msdModel`): frame `[5,..]` ↦ 4 and 2; frame `[1,..]`
↦ 0 and 2. -/
def centersEx : List ℚ := [1, 0, 0, -1, 0, 0, 3, 0, 0, -3, 0, 0]

/-- Caller-allocated output buffer with arbitrary initial contents. -/
def dtrajEx : List ℤ := [9, 9, 9, 9, 9, 9, 9, 9, 9, 9, 9]

/-- A racy 2-worker schedule: worker 0's `memcpy` (frame 0) lands between
worker 1's `memcpy` (frame 10) and worker 1's distance computation, so
worker 1's first distance is computed from worker 0's frame. -/
def schedRacy : List ℕ := [1, 1, 0, 0, 1, 1, 1, 1] ++ List.replicate 58 0

/-- The 1-worker schedule (sequential execution). -/
def schedSerial : List ℕ := List.replicate 66 0

/-- A 2-worker schedule with no interleaving inside any distance call:
worker 0 runs to completion, then worker 1. -/
def schedClean : List ℕ := List.replicate 60 0 ++ List.replicate 6 1

theorem isqrtAux_eq (f : ℕ) : ∀ n : ℕ, n < 4 ^ f → isqrtAux f n = Nat.sqrt n := by
  induction f with
  | zero =>
    intro n h
    have hn : n = 0 := by simpa using h
    subst hn
    simp [isqrtAux]
  | succ f ih =>
    intro n h
    have hq : n / 4 < 4 ^ f := by
      rw [Nat.div_lt_iff_lt_mul (by norm_num : 0 < 4)]
      calc n < 4 ^ (f + 1) := h
        _ = 4 ^ f * 4 := by rw [pow_succ]
    have hs : isqrtAux f (n / 4) = Nat.sqrt (n / 4) := ih _ hq
    have h1 : (2 * Nat.sqrt (n / 4)) * (2 * Nat.sqrt (n / 4)) ≤ n := by
      have hle : Nat.sqrt (n / 4) * Nat.sqrt (n / 4) ≤ n / 4 := Nat.sqrt_le _
      nlinarith [Nat.div_mul_le_self n 4]
    have h2 : n < (2 * Nat.sqrt (n / 4) + 2) * (2 * Nat.sqrt (n / 4) + 2) := by
      have hlt : n / 4 < (Nat.sqrt (n / 4) + 1) * (Nat.sqrt (n / 4) + 1) := Nat.lt_succ_sqrt _
      have hmod : n < 4 * (n / 4) + 4 := by
        have := Nat.div_add_mod n 4
        have := Nat.mod_lt n (show 0 < 4 by norm_num)
        omega
      nlinarith
    show isqrtStep n (isqrtAux f (n / 4)) = Nat.sqrt n
    rw [hs]
    unfold isqrtStep
    by_cases hc : (2 * Nat.sqrt (n / 4) + 1) * (2 * Nat.sqrt (n / 4) + 1) ≤ n
    · rw [if_pos hc]
      refine Nat.eq_sqrt.mpr ⟨hc, ?_⟩
      have heq : 2 * Nat.sqrt (n / 4) + 1 + 1 = 2 * Nat.sqrt (n / 4) + 2 := rfl
      rw [heq]
      exact h2
    · rw [if_neg hc]
      exact Nat.eq_sqrt.mpr ⟨h1, by omega⟩

theorem isqrt_eq_sqrt (n : ℕ) (h : n < 4 ^ 132) : isqrt n = Nat.sqrt n :=
  isqrtAux_eq 132 n h

theorem ratSqrt_eq_sqrt (q : ℚ) (hn : q.num.toNat < 4 ^ 132) (hd : q.den < 4 ^ 132) :
    ratSqrt q = Rat.sqrt q := by
  unfold ratSqrt Rat.sqrt
  rw [isqrt_eq_sqrt _ hn, isqrt_eq_sqrt _ hd, Int.sqrt]

theorem fltMax_eq : fltMax = (2 ^ 24 - 1) * 2 ^ 104 := by norm_num [fltMax]

theorem sizeMax_eq : sizeMax = 2 ^ 64 - 1 := by norm_num [sizeMax]

/-! ## Properties of the comparison and of the center scan -/

theorem fltLt_eq_true {d : FVal} {m : ℚ} : fltLt d m = true ↔ ∃ x, d = some x ∧ x < m := by
  cases d <;> simp [fltLt]

theorem fltLt_eq_false {d : FVal} {m : ℚ} : fltLt d m = false ↔ ∀ x, d = some x → m ≤ x := by
  cases d <;> simp [fltLt]

theorem scanCenters_zero (dist : ℕ → FVal) : scanCenters dist 0 = (fltMax, sizeMax) := rfl

theorem scanCenters_succ (dist : ℕ → FVal) (n : ℕ) :
    scanCenters dist (n + 1) = scanStep dist (scanCenters dist n) n := by
  unfold scanCenters
  rw [List.range_succ, List.foldl_append]
  rfl

theorem scanStep_fst_le (dist : ℕ → FVal) (s : ℚ × ℕ) (j : ℕ) :
    (scanStep dist s j).1 ≤ s.1 := by
  unfold scanStep
  by_cases h : fltLt (dist j) s.1 = true
  · rw [if_pos h]
    obtain ⟨x, hx, hlt⟩ := fltLt_eq_true.mp h
    simp [hx]
    exact le_of_lt hlt
  · rw [if_neg h]

theorem scanCenters_fst_le (dist : ℕ → FVal) (n : ℕ) :
    (scanCenters dist n).1 ≤ fltMax := by
  induction n with
  | zero => exact le_refl _
  | succ n ih =>
    rw [scanCenters_succ]
    exact le_trans (scanStep_fst_le dist _ n) ih

/-- Full characterization of the center scan of `c_assign`: if no center's
distance compares strictly below `FLT_MAX`, the `(mindist, argmin)` state is
left at its initial `(FLT_MAX, (size_t)-1)`; otherwise the final `mindist`
is the least comparable distance, it is attained at `argmin`, and every
index below `argmin` has a strictly larger (or incomparable) distance —
i.e. `argmin` is the lowest index attaining the minimum. -/
theorem scanCenters_char (dist : ℕ → FVal) (n : ℕ) :
    ((∀ j, j < n → fltLt (dist j) fltMax = false) → scanCenters dist n = (fltMax, sizeMax))
    ∧ ((∃ j, j < n ∧ fltLt (dist j) fltMax = true) →
        (scanCenters dist n).2 < n
        ∧ dist (scanCenters dist n).2 = some (scanCenters dist n).1
        ∧ (scanCenters dist n).1 < fltMax
        ∧ (∀ j d, j < n → dist j = some d → (scanCenters dist n).1 ≤ d)
        ∧ (∀ j d, j < (scanCenters dist n).2 → dist j = some d → (scanCenters dist n).1 < d)) := by
  induction n with
  | zero =>
    refine ⟨fun _ => rfl, ?_⟩
    rintro ⟨j, hj, -⟩
    omega
  | succ n ih =>
    rw [scanCenters_succ]
    by_cases hb : fltLt (dist n) (scanCenters dist n).1 = true
    · -- the step at index n updates the state
      obtain ⟨d, hdeq, hdlt⟩ := fltLt_eq_true.mp hb
      have hstep : scanStep dist (scanCenters dist n) n = (d, n) := by
        unfold scanStep
        rw [if_pos hb, hdeq]
        rfl
      rw [hstep]
      have hdmax : d < fltMax := lt_of_lt_of_le hdlt (scanCenters_fst_le dist n)
      constructor
      · intro hall
        exact absurd (fltLt_eq_false.mp (hall n (Nat.lt_succ_self n)) d hdeq) (not_le.mpr hdmax)
      · intro _
        refine ⟨Nat.lt_succ_self n, hdeq, hdmax, ?_, ?_⟩
        · intro j e hj he
          rcases Nat.lt_succ_iff_lt_or_eq.mp hj with hj' | hj'
          · by_cases hex : ∃ j, j < n ∧ fltLt (dist j) fltMax = true
            · obtain ⟨-, -, -, h4, -⟩ := ih.2 hex
              exact le_trans (le_of_lt hdlt) (h4 j e hj' he)
            · push_neg at hex
              have hjf : fltLt (dist j) fltMax = false := by simpa using hex j hj'
              exact le_trans (le_of_lt hdmax) (fltLt_eq_false.mp hjf e he)
          · rw [hj'] at he
            rw [hdeq] at he
            injection he with he
            show d ≤ e
            exact le_of_eq he
        · intro j e hj he
          by_cases hex : ∃ j, j < n ∧ fltLt (dist j) fltMax = true
          · obtain ⟨-, -, -, h4, -⟩ := ih.2 hex
            exact lt_of_lt_of_le hdlt (h4 j e hj he)
          · push_neg at hex
            have hjf : fltLt (dist j) fltMax = false := by simpa using hex j hj
            exact lt_of_lt_of_le hdmax (fltLt_eq_false.mp hjf e he)
    · -- the step at index n leaves the state unchanged
      have hstep : scanStep dist (scanCenters dist n) n = scanCenters dist n := by
        unfold scanStep
        rw [if_neg hb]
      rw [hstep]
      have hbf : fltLt (dist n) (scanCenters dist n).1 = false := by simpa using hb
      constructor
      · intro hall
        exact ih.1 (fun j hj => hall j (Nat.lt_succ_of_lt hj))
      · rintro ⟨j, hj, hjt⟩
        have hex : ∃ j, j < n ∧ fltLt (dist j) fltMax = true := by
          rcases Nat.lt_succ_iff_lt_or_eq.mp hj with hj' | hj'
          · exact ⟨j, hj', hjt⟩
          · by_contra hex
            push_neg at hex
            have hall : ∀ k, k < n → fltLt (dist k) fltMax = false := fun k hk => by
              simpa using hex k hk
            have hinit := ih.1 hall
            have hfst : (scanCenters dist n).1 = fltMax := by rw [hinit]
            rw [hj'] at hjt
            rw [hfst, hjt] at hbf
            exact Bool.noConfusion hbf
        obtain ⟨h1, h2, h3, h4, h5⟩ := ih.2 hex
        refine ⟨Nat.lt_succ_of_lt h1, h2, h3, ?_, h5⟩
        intro k e hk he
        rcases Nat.lt_succ_iff_lt_or_eq.mp hk with hk' | hk'
        · exact h4 k e hk' he
        · subst hk'
          exact fltLt_eq_false.mp hbf e he

/-- If no center's distance compares strictly below `FLT_MAX` (in particular
if every distance is NaN), the scan state keeps its initial value. -/
theorem scanCenters_miss (dist : ℕ → FVal) (n : ℕ)
    (h : ∀ j, j < n → fltLt (dist j) fltMax = false) :
    scanCenters dist n = (fltMax, sizeMax) :=
  (scanCenters_char dist n).1 h

/-- If some center's distance compares strictly below `FLT_MAX`, the final
`argmin` is a genuine center index. -/
theorem scanCenters_hit (dist : ℕ → FVal) (n : ℕ)
    (h : ∃ j, j < n ∧ fltLt (dist j) fltMax = true) :
    (scanCenters dist n).2 < n :=
  ((scanCenters_char dist n).2 h).1

/-- Tie-break law of the scan: if `m` is a minimal distance value attained at
some center and `m < FLT_MAX`, the final `argmin` is the *lowest* index whose
distance is `m`. -/
theorem scanCenters_tiebreak (dist : ℕ → FVal) (n : ℕ) (m : ℚ) (j₀ : ℕ)
    (hj : j₀ < n) (hd : dist j₀ = some m) (hm : m < fltMax)
    (hmin : ∀ j d, j < n → dist j = some d → m ≤ d) :
    (scanCenters dist n).2 < n
    ∧ dist (scanCenters dist n).2 = some m
    ∧ ∀ j, j < (scanCenters dist n).2 → dist j ≠ some m := by
  have hit : ∃ j, j < n ∧ fltLt (dist j) fltMax = true :=
    ⟨j₀, hj, fltLt_eq_true.mpr ⟨m, hd, hm⟩⟩
  obtain ⟨h1, h2, h3, h4, h5⟩ := (scanCenters_char dist n).2 hit
  have hms : (scanCenters dist n).1 = m :=
    le_antisymm (h4 j₀ m hj hd) (hmin _ _ h1 h2)
  refine ⟨h1, hms ▸ h2, ?_⟩
  intro j hjlt hcontra
  have := h5 j m hjlt hcontra
  rw [hms] at this
  exact lt_irrefl m this

/-! ## Facts about `toInt32` -/

theorem toInt32_sizeMax : toInt32 sizeMax = -1 := by decide

theorem toInt32_small (j : ℕ) (h : j < 2147483648) : toInt32 j = (j : ℤ) := by
  unfold toInt32
  have hmod : j % 4294967296 = j := Nat.mod_eq_of_lt (by omega)
  rw [hmod, if_pos h]

/-! ## Facts about the output writes -/

theorem assignOut_zero (dist : ℕ → ℕ → FVal) (dtraj : List ℤ) (ncenters : ℕ) :
    assignOut dist dtraj 0 ncenters = dtraj := rfl

theorem assignOut_succ (dist : ℕ → ℕ → FVal) (dtraj : List ℤ) (n ncenters : ℕ) :
    assignOut dist dtraj (n + 1) ncenters =
      (assignOut dist dtraj n ncenters).set n (toInt32 (scanCenters (dist n) ncenters).2) := by
  unfold assignOut
  rw [List.range_succ, List.foldl_append]
  rfl

theorem assignOut_length (dist : ℕ → ℕ → FVal) (dtraj : List ℤ) (nframes ncenters : ℕ) :
    (assignOut dist dtraj nframes ncenters).length = dtraj.length := by
  induction nframes with
  | zero => rfl
  | succ n ih => rw [assignOut_succ, List.length_set, ih]

/-- Each frame's output slot holds exactly the `argmin` of its own center
scan (truncated to `int32`): the frame loop writes each slot once. -/
theorem assignOut_getElem? (dist : ℕ → ℕ → FVal) (dtraj : List ℤ) (nframes ncenters : ℕ)
    (i : ℕ) (hi : i < nframes) (hlen : i < dtraj.length) :
    (assignOut dist dtraj nframes ncenters)[i]? =
      some (toInt32 (scanCenters (dist i) ncenters).2) := by
  induction nframes with
  | zero => omega
  | succ n ih =>
    rw [assignOut_succ]
    rcases Nat.lt_succ_iff_lt_or_eq.mp hi with hi' | hi'
    · rw [List.getElem?_set_ne (show n ≠ i by omega)]
      exact ih hi'
    · subst hi'
      exact List.getElem?_set_eq_of_lt _ (by rw [assignOut_length]; exact hlen)

/-! ## Loop accumulations as mathematical sums -/

theorem foldl_range_add (g : ℕ → ℚ) (n : ℕ) :
    (List.range n).foldl (fun s i => s + g i) 0 = ∑ i ∈ Finset.range n, g i := by
  induction n with
  | zero => simp
  | succ n ih =>
    rw [List.range_succ, List.foldl_append, ih, Finset.sum_range_succ]
    rfl

theorem getD_map_range (f : ℕ → ℚ) (m t : ℕ) (h : t < m) :
    ((List.range m).map f).getD t 0 = f t := by
  rw [List.getD_eq_getElem?_getD, List.getElem?_map, List.getElem?_range h]
  rfl

/-- The loop of `euclidean_distance` computes exactly the square root of the
sum of the squared per-component differences. -/
theorem euclidean_distance_eq_sum (a b : List ℚ) (n : ℕ) :
    euclidean_distance a b n =
      ratSqrt (∑ i ∈ Finset.range n, (a.getD i 0 - b.getD i 0) * (a.getD i 0 - b.getD i 0)) := by
  unfold euclidean_distance
  rw [foldl_range_add (fun i => (a.getD i 0 - b.getD i 0) * (a.getD i 0 - b.getD i 0)) n]

/-! ## Properties of the centering primitive -/

/-- The recorded trace is the pre-translation sum of the squared
coordinates (the trace of the second-moment matrix of the point set). -/
theorem center_trace_eq_sum (buf : List ℚ) (k : ℕ) :
    (inplace_center_and_trace_atom_major buf k).2 =
      ∑ t ∈ Finset.range (3 * k), buf.getD t 0 * buf.getD t 0 := by
  unfold inplace_center_and_trace_atom_major
  exact foldl_range_add (fun t => buf.getD t 0 * buf.getD t 0) (3 * k)

/-- Coordinate `t` of the centered buffer is the original coordinate minus
the centroid coordinate for axis `t % 3`. -/
theorem center_coord_eq (buf : List ℚ) (k t : ℕ) (h : t < 3 * k) :
    (inplace_center_and_trace_atom_major buf k).1.getD t 0 =
      buf.getD t 0 - (∑ j ∈ Finset.range k, buf.getD (3 * j + t % 3) 0) / k := by
  unfold inplace_center_and_trace_atom_major
  rw [getD_map_range _ _ _ h, foldl_range_add (fun j => buf.getD (3 * j + t % 3) 0) k]

/-- Centering really translates the point set to its own centroid: after
centering, each coordinate axis sums to zero over the atoms. -/
theorem center_centroid_zero (buf : List ℚ) (k c : ℕ) (hk : 0 < k) (hc : c < 3) :
    ∑ j ∈ Finset.range k, (inplace_center_and_trace_atom_major buf k).1.getD (3 * j + c) 0 = 0 := by
  have hmod : ∀ j : ℕ, (3 * j + c) % 3 = c := by
    intro j
    omega
  have hterm : ∀ j ∈ Finset.range k,
      (inplace_center_and_trace_atom_major buf k).1.getD (3 * j + c) 0 =
        buf.getD (3 * j + c) 0 - (∑ i ∈ Finset.range k, buf.getD (3 * i + c) 0) / k := by
    intro j hj
    have hjk : j < k := Finset.mem_range.mp hj
    have hlt : 3 * j + c < 3 * k := by omega
    rw [center_coord_eq buf k _ hlt, hmod j]
  rw [Finset.sum_congr rfl hterm, Finset.sum_sub_distrib, Finset.sum_const, Finset.card_range]
  have hkq : (k : ℚ) ≠ 0 := Nat.cast_ne_zero.mpr (by omega)
  rw [nsmul_eq_mul, mul_div_cancel₀ _ hkq]
  exact sub_self _

/-! ## Resolution of the metric name in `c_assign` -/

theorem c_assign_invalid_eq (msd : MsdFn) (chunk centers : List ℚ) (dtraj : List ℤ)
    (metric : String) (nf nc dim t : ℕ) (a b : Bool)
    (h1 : metric ≠ "euclidean") (h2 : metric ≠ "minRMSD") :
    c_assign msd chunk centers dtraj metric nf nc dim t a b =
      ⟨.errInvalidMetric, dtraj, 0, 0⟩ := by
  unfold c_assign
  rw [if_neg h1, if_neg h2]

theorem c_assign_noMemory_eq (msd : MsdFn) (chunk centers : List ℚ) (dtraj : List ℤ)
    (nf nc dim t : ℕ) (alloc_a alloc_b : Bool)
    (h : alloc_a = false ∨ alloc_b = false) :
    c_assign msd chunk centers dtraj "minRMSD" nf nc dim t alloc_a alloc_b =
      ⟨.errNoMemory, dtraj, (if alloc_a then 1 else 0) + (if alloc_b then 1 else 0), 0⟩ := by
  unfold c_assign
  rw [if_neg (show ¬("minRMSD" : String) = "euclidean" by decide), if_pos rfl]
  have hb : (alloc_a && alloc_b) = false := by
    rcases h with h | h <;> rw [h] <;> simp
  rw [hb]
  rfl

theorem c_assign_euclidean_eq (msd : MsdFn) (chunk centers : List ℚ) (dtraj : List ℤ)
    (nf nc dim t : ℕ) (a b : Bool) :
    c_assign msd chunk centers dtraj "euclidean" nf nc dim t a b =
      ⟨.success,
       assignOut (fun i j =>
         some (euclidean_distance (frameOf chunk dim i) (frameOf centers dim j) dim))
         dtraj nf nc,
       0, 0⟩ := by
  unfold c_assign
  rw [if_pos rfl]

theorem c_assign_minRMSD_eq (msd : MsdFn) (chunk centers : List ℚ) (dtraj : List ℤ)
    (nf nc dim t : ℕ) :
    c_assign msd chunk centers dtraj "minRMSD" nf nc dim t true true =
      ⟨.success,
       assignOut (fun i j =>
         some ((minRMSD_distance msd (frameOf chunk dim i) (frameOf centers dim j) dim).1))
         dtraj nf nc,
       2, 0⟩ := by
  unfold c_assign
  rw [if_neg (show ¬("minRMSD" : String) = "euclidean" by decide), if_pos rfl]
  rfl

/-- On the two successful configurations the engine returns `ASSIGN_SUCCESS`
and the output is the per-frame scan over the resolved metric's distances. -/
theorem c_assign_success_out (msd : MsdFn) (chunk centers : List ℚ) (dtraj : List ℤ)
    (metric : String) (nf nc dim t : ℕ) (a b : Bool)
    (h : metric = "euclidean" ∨ (metric = "minRMSD" ∧ a = true ∧ b = true)) :
    (c_assign msd chunk centers dtraj metric nf nc dim t a b).ret = .success
    ∧ (c_assign msd chunk centers dtraj metric nf nc dim t a b).dtraj =
        assignOut (fun i j => some (metricDist msd metric chunk centers dim i j)) dtraj nf nc := by
  rcases h with h | ⟨h, ha, hb⟩
  · subst h
    rw [c_assign_euclidean_eq]
    refine ⟨rfl, ?_⟩
    have hfun : (fun i j => some (metricDist msd "euclidean" chunk centers dim i j)) =
        (fun i j =>
          some (euclidean_distance (frameOf chunk dim i) (frameOf centers dim j) dim)) := by
      funext i j
      rw [metricDist, if_pos rfl]
    rw [hfun]
  · subst h
    subst ha
    subst hb
    rw [c_assign_minRMSD_eq]
    refine ⟨rfl, ?_⟩
    have hfun : (fun i j => some (metricDist msd "minRMSD" chunk centers dim i j)) =
        (fun i j =>
          some ((minRMSD_distance msd (frameOf chunk dim i) (frameOf centers dim j) dim).1)) := by
      funext i j
      rw [metricDist, if_neg (show ¬("minRMSD" : String) = "euclidean" by decide)]
    rw [hfun]

theorem assignOut_one (dist : ℕ → ℕ → FVal) (dtraj : List ℤ) (nc : ℕ) :
    assignOut dist dtraj 1 nc = dtraj.set 0 (toInt32 (scanCenters (dist 0) nc).2) := by
  have h := assignOut_succ dist dtraj 0 nc
  rw [assignOut_zero] at h
  exact h

theorem assignOut_two (dist : ℕ → ℕ → FVal) (dtraj : List ℤ) (nc : ℕ) :
    assignOut dist dtraj 2 nc =
      (dtraj.set 0 (toInt32 (scanCenters (dist 0) nc).2)).set 1
        (toInt32 (scanCenters (dist 1) nc).2) := by
  have h := assignOut_succ dist dtraj 1 nc
  rw [assignOut_one] at h
  exact h

theorem c_assign_euclidean_dtraj (msd : MsdFn) (chunk centers : List ℚ) (dtraj : List ℤ)
    (nf nc dim t : ℕ) (a b : Bool) :
    (c_assign msd chunk centers dtraj "euclidean" nf nc dim t a b).dtraj =
      assignOut (fun i j =>
        some (euclidean_distance (frameOf chunk dim i) (frameOf centers dim j) dim))
        dtraj nf nc := by
  rw [c_assign_euclidean_eq]

/-! ## Symbolic evaluation helpers for large inputs

Inputs near `FLT_MAX` make the distance values too large to evaluate inside
the kernel; these lemmas compute them symbolically instead. -/

theorem fltLt_of_le (x m : ℚ) (h : m ≤ x) : fltLt (some x) m = false := by
  unfold fltLt
  exact decide_eq_false (not_lt.mpr h)

theorem fltLt_of_lt (x m : ℚ) (h : x < m) : fltLt (some x) m = true := by
  unfold fltLt
  exact decide_eq_true h

theorem euclidean_distance_one (a b : List ℚ) :
    euclidean_distance a b 1 =
      ratSqrt ((a.getD 0 0 - b.getD 0 0) * (a.getD 0 0 - b.getD 0 0)) := by
  rw [euclidean_distance_eq_sum, Finset.sum_range_one]

theorem ratSqrt_natCast_sq (m : ℕ) (h : m * m < 4 ^ 132) :
    ratSqrt ((m : ℚ) * (m : ℚ)) = (m : ℚ) := by
  have hcast : ((m : ℚ) * (m : ℚ)) = ((m * m : ℕ) : ℚ) := by push_cast; ring
  have hnum : ((m * m : ℕ) : ℚ).num.toNat < 4 ^ 132 := by
    rw [Rat.num_natCast, Int.toNat_natCast]
    exact h
  have hden : ((m * m : ℕ) : ℚ).den < 4 ^ 132 := by
    rw [Rat.den_natCast]
    norm_num
  rw [hcast, ratSqrt_eq_sqrt _ hnum hden, Rat.sqrt_natCast, Nat.sqrt_eq]

/-- Euclidean distance in dimension 1 between `m` and `-m`: exactly `2 m`. -/
theorem euclid_opposite (m : ℕ) (h : (2 * m) * (2 * m) < 4 ^ 132) :
    euclidean_distance [(m : ℚ)] [-(m : ℚ)] 1 = ((2 * m : ℕ) : ℚ) := by
  rw [euclidean_distance_one]
  have hdiff : ([(m : ℚ)].getD 0 0 - [-(m : ℚ)].getD 0 0) = ((2 * m : ℕ) : ℚ) := by
    show (m : ℚ) - (-(m : ℚ)) = ((2 * m : ℕ) : ℚ)
    push_cast
    ring
  rw [hdiff, ratSqrt_natCast_sq _ h]

/-- Euclidean distance of a vector to itself is exactly `0` (every
per-component difference is `0`, exact in the C float computation as
well). -/
theorem euclid_self (a : List ℚ) (n : ℕ) : euclidean_distance a a n = 0 := by
  rw [euclidean_distance_eq_sum]
  have hz : (∑ i ∈ Finset.range n,
      (a.getD i 0 - a.getD i 0) * (a.getD i 0 - a.getD i 0)) = 0 := by
    simp
  rw [hz]
  with_unfolding_all decide

/-- Euclidean distance in dimension 1 between `m` and `0`: exactly `m`. -/
theorem euclid_to_zero (m : ℕ) (h : m * m < 4 ^ 132) :
    euclidean_distance [(m : ℚ)] [(0 : ℚ)] 1 = ((m : ℕ) : ℚ) := by
  rw [euclidean_distance_one]
  have hdiff : ([(m : ℚ)].getD 0 0 - [(0 : ℚ)].getD 0 0) = ((m : ℕ) : ℚ) := by
    show (m : ℚ) - (0 : ℚ) = ((m : ℕ) : ℚ)
    ring
  rw [hdiff, ratSqrt_natCast_sq _ h]

/-! ## Claim C1 — tie-break policy -/

/-- C1 (amended): the center scan updates its best index only on a strictly
smaller distance while scanning indices in increasing order, so whenever the
minimal distance `m` of a frame is attained at one or more centers *and `m`
is strictly below `FLT_MAX`*, the engine reports the lowest index attaining
`m`; in particular for `dim = 1`, `frames = [[0]]`, `centers = [[1], [-1]]`
under the Euclidean metric the output is `[0]`. (The frozen claim omits the
`m < FLT_MAX` proviso; `tie_break_at_flt_max_counterexample` shows the
proviso is necessary.) -/
theorem tie_break_lowest_index_spec :
    (∀ (dist : ℕ → FVal) (n : ℕ) (m : ℚ) (j₀ : ℕ),
      j₀ < n → dist j₀ = some m → m < fltMax →
      (∀ j d, j < n → dist j = some d → m ≤ d) →
      (scanCenters dist n).2 < n
      ∧ dist (scanCenters dist n).2 = some m
      ∧ ∀ j, j < (scanCenters dist n).2 → dist j ≠ some m)
    ∧ (c_assign msdModel [0] [1, -1] [7] "euclidean" 1 2 1 1 true true).dtraj = [0] := by
  constructor
  · intro dist n m j₀ hj hd hm hmin
    exact scanCenters_tiebreak dist n m j₀ hj hd hm hmin
  · with_unfolding_all decide

/-- Witness for `tie_break_lowest_index_spec` at a concrete tie: every
center at distance exactly 1; the scan settles on an index below 2 whose
distance is 1 and below which no index attains 1 — evaluation shows it is
index 0. -/
theorem tie_break_lowest_index_spec_witness :
    ((0 : ℕ) < 2 ∧ (fun _ : ℕ => (some 1 : FVal)) 0 = some 1 ∧ (1 : ℚ) < fltMax
      ∧ (∀ j d, j < 2 → (fun _ : ℕ => (some 1 : FVal)) j = some d → (1 : ℚ) ≤ d))
    ∧ ((scanCenters (fun _ => some 1) 2).2 < 2
      ∧ (fun _ : ℕ => (some 1 : FVal)) (scanCenters (fun _ => some 1) 2).2 = some 1
      ∧ ∀ j, j < (scanCenters (fun _ => some 1) 2).2 →
          (fun _ : ℕ => (some 1 : FVal)) j ≠ some 1)
    ∧ (scanCenters (fun _ => some 1) 2).2 = 0 := by
  refine ⟨⟨by norm_num, rfl, by rw [fltMax_eq]; norm_num, ?_⟩, ?_, ?_⟩
  · intro j d _ h
    injection h with h
    exact le_of_eq h
  · exact tie_break_lowest_index_spec.1 (fun _ => some 1) 2 1 0 (by norm_num) rfl
      (by rw [fltMax_eq]; norm_num)
      (fun j d _ h => by injection h with h; exact le_of_eq h)
  · with_unfolding_all decide

/-- C1 counterexample: with `frames = [[FLT_MAX]]` and two centers both
`[0]`, the centers are at exactly equal minimal distance (`FLT_MAX`) from
the frame, yet the engine writes `[-1]` and not the lowest index `[0]`: no
distance is *strictly* below the initial `mindist = FLT_MAX`, so no update
ever happens. (In the C program the squared value overflows the `float`
multiplication to `+inf`, so both computed distances are equal to `+inf`;
in the exact model both are exactly `FLT_MAX`; in either case the strict
comparison against `FLT_MAX` is false for both centers and the outcome is
the same `[-1]`.) -/
theorem tie_break_at_flt_max_counterexample :
    euclidean_distance (frameOf [fltMax] 1 0) (frameOf [0, 0] 1 0) 1
      = euclidean_distance (frameOf [fltMax] 1 0) (frameOf [0, 0] 1 1) 1
    ∧ (c_assign msdModel [fltMax] [0, 0] [7] "euclidean" 1 2 1 1 true true).dtraj = [-1]
    ∧ ([-1] : List ℤ) ≠ [0] := by
  have hfc : fltMax = ((340282346638528859811704183484516925440 : ℕ) : ℚ) := by
    unfold fltMax
    norm_num
  refine ⟨rfl, ?_, by decide⟩
  rw [c_assign_euclidean_dtraj, assignOut_one]
  have hmiss : ∀ j, j < 2 →
      fltLt ((fun j => some (euclidean_distance (frameOf [fltMax] 1 0)
        (frameOf [0, 0] 1 j) 1)) j) fltMax = false := by
    intro j hj
    have hcen : frameOf [0, 0] 1 j = [0] := by
      have hj01 : j = 0 ∨ j = 1 := by omega
      rcases hj01 with h | h <;> subst h <;> rfl
    show fltLt (some (euclidean_distance (frameOf [fltMax] 1 0) (frameOf [0, 0] 1 j) 1))
      fltMax = false
    rw [hcen]
    have hfr : frameOf [fltMax] 1 0 = [((340282346638528859811704183484516925440 : ℕ) : ℚ)] := by
      rw [hfc]
      rfl
    rw [hfr, euclid_to_zero _ (by norm_num)]
    exact fltLt_of_le _ _ (le_of_eq hfc)
  rw [scanCenters_miss _ _ hmiss]
  rw [show (fltMax, sizeMax).2 = sizeMax from rfl, toInt32_sizeMax]
  rfl

/-! ## Claim C2 — range invariant -/

/-- C2 (amended): on a successful call (`N_centers` within `int32` range,
output buffer of length `N_frames`) every written index lies in
`[0, N_centers)` *provided every frame has at least one center whose
distance is strictly below `FLT_MAX`* — which holds for all inputs of
moderate magnitude. (The frozen claim has no such proviso;
`range_invariant_counterexample` shows it is necessary.) -/
theorem range_invariant_spec (msd : MsdFn) (chunk centers : List ℚ) (dtraj : List ℤ)
    (metric : String) (nf nc dim t : ℕ) (a b : Bool)
    (hres : metric = "euclidean" ∨ (metric = "minRMSD" ∧ a = true ∧ b = true))
    (hnc : nc ≤ 2147483648)
    (hlen : dtraj.length = nf)
    (hdist : ∀ i, i < nf → ∃ j, j < nc ∧ metricDist msd metric chunk centers dim i j < fltMax) :
    ∀ i, i < nf → ∃ k : ℕ, k < nc ∧
      (c_assign msd chunk centers dtraj metric nf nc dim t a b).dtraj[i]? = some ((k : ℕ) : ℤ) := by
  intro i hi
  obtain ⟨-, hout⟩ := c_assign_success_out msd chunk centers dtraj metric nf nc dim t a b hres
  rw [hout, assignOut_getElem? _ _ _ _ i hi (by omega)]
  obtain ⟨j, hj, hjlt⟩ := hdist i hi
  have hit : ∃ j', j' < nc ∧
      fltLt ((fun j' => some (metricDist msd metric chunk centers dim i j')) j') fltMax = true :=
    ⟨j, hj, fltLt_of_lt _ _ hjlt⟩
  have harg := scanCenters_hit _ _ hit
  refine ⟨(scanCenters (fun j' => some (metricDist msd metric chunk centers dim i j')) nc).2,
    harg, ?_⟩
  rw [toInt32_small _ (lt_of_lt_of_le harg hnc)]

/-- Witness for `range_invariant_spec`: one frame `[0]`, centers `[1], [-1]`,
Euclidean; the written index is in `[0, 2)`. -/
theorem range_invariant_spec_witness :
    (("euclidean" = "euclidean" ∨ ("euclidean" = "minRMSD" ∧ true = true ∧ true = true))
      ∧ (2 : ℕ) ≤ 2147483648
      ∧ ([7] : List ℤ).length = 1
      ∧ (∀ i, i < 1 → ∃ j, j < 2 ∧ metricDist msdModel "euclidean" [0] [1, -1] 1 i j < fltMax))
    ∧ ∀ i, i < 1 → ∃ k : ℕ, k < 2 ∧
        (c_assign msdModel [0] [1, -1] [7] "euclidean" 1 2 1 1 true true).dtraj[i]? =
          some ((k : ℕ) : ℤ) := by
  have hdist : ∀ i, i < 1 → ∃ j, j < 2 ∧
      metricDist msdModel "euclidean" [0] [1, -1] 1 i j < fltMax := by
    intro i hi
    have hi0 : i = 0 := by omega
    subst hi0
    exact ⟨0, by norm_num, by with_unfolding_all decide⟩
  exact ⟨⟨Or.inl rfl, by norm_num, rfl, hdist⟩,
    range_invariant_spec msdModel [0] [1, -1] [7] "euclidean" 1 2 1 1 true true
      (Or.inl rfl) (by norm_num) rfl hdist⟩

/-- C2 counterexample: the frame `[2^127]` with two copies of the center
`[-2^127]` (all representable `float32` values; `N_centers = 2 ≥ 1`,
`dim = 1 ≥ 1`) produces the output `[-1]`, outside `[0, 2)`: the exact
distance `2^128` (an overflow to `+inf` in the C program) is not strictly
below `FLT_MAX`, so the initial `argmin = (size_t)-1` is written back. -/
theorem range_invariant_counterexample :
    (c_assign msdModel [170141183460469231731687303715884105728]
      [-170141183460469231731687303715884105728, -170141183460469231731687303715884105728]
      [7] "euclidean" 1 2 1 1 true true).dtraj = [-1]
    ∧ ¬(0 ≤ (-1 : ℤ) ∧ (-1 : ℤ) < 2) := by
  have hq : (170141183460469231731687303715884105728 : ℚ)
      = ((170141183460469231731687303715884105728 : ℕ) : ℚ) := by norm_num
  refine ⟨?_, by omega⟩
  rw [c_assign_euclidean_dtraj, assignOut_one]
  have hmiss : ∀ j, j < 2 →
      fltLt ((fun j => some (euclidean_distance
        (frameOf [(170141183460469231731687303715884105728 : ℚ)] 1 0)
        (frameOf [-(170141183460469231731687303715884105728 : ℚ),
          -(170141183460469231731687303715884105728 : ℚ)] 1 j) 1)) j) fltMax = false := by
    intro j hj
    have hcen : frameOf [-(170141183460469231731687303715884105728 : ℚ),
        -(170141183460469231731687303715884105728 : ℚ)] 1 j
        = [-((170141183460469231731687303715884105728 : ℕ) : ℚ)] := by
      have hj01 : j = 0 ∨ j = 1 := by omega
      rcases hj01 with h | h <;> subst h <;> rw [hq] <;> rfl
    have hfr : frameOf [(170141183460469231731687303715884105728 : ℚ)] 1 0
        = [((170141183460469231731687303715884105728 : ℕ) : ℚ)] := by
      rw [hq]
      rfl
    show fltLt (some (euclidean_distance _ _ 1)) fltMax = false
    rw [hcen, hfr, euclid_opposite _ (by norm_num)]
    refine fltLt_of_le _ _ ?_
    unfold fltMax
    push_cast
    norm_num
  rw [scanCenters_miss _ _ hmiss]
  rw [show (fltMax, sizeMax).2 = sizeMax from rfl, toInt32_sizeMax]
  rfl

/-! ## Claim C3 — one scratch pair per worker -/

/-- C3 (code bug): for a `"minRMSD"` call `c_assign` allocates exactly ONE
scratch pair (two buffers) in total, for every requested worker count — not
one distinct pair per worker as the spec requires (at `n_threads = 2` the
per-worker policy would allocate `2 * 2` buffers). The single pair is then
shared by all workers of the parallel region; see
`parallel_schedule_divergence_bug` for an execution in which the sharing is
observable. -/
theorem single_shared_scratch_pair_bug :
    (∀ (msd : MsdFn) (chunk centers : List ℚ) (dtraj : List ℤ) (nf nc dim n_threads : ℕ),
      (c_assign msd chunk centers dtraj "minRMSD" nf nc dim n_threads true
        true).allocatedBuffers = 2)
    ∧ (c_assign msdModel chunkEx centersEx dtrajEx "minRMSD" 11 2 6 2 true
        true).allocatedBuffers ≠ 2 * 2 := by
  constructor
  · intro msd chunk centers dtraj nf nc dim t
    rw [c_assign_minRMSD_eq]
  · rw [c_assign_minRMSD_eq]
    decide

/-! ## Claim C4 — determinism / worker-count independence -/

/-- C4 (code bug): with the shared scratch pair, the outcome of the parallel
region depends on the interleaving: on identical inputs, the racy 2-worker
schedule produces `[0,1,1,1,1,1,1,1,1,1,1]` while the 1-worker schedule
produces `[1,1,1,1,1,1,1,1,1,1,0]` — they differ in the slots of frames 0
and 10. A 2-worker schedule that never lets a foreign `memcpy` land inside
a distance call reproduces the serial result, as does the sequential
semantics of `c_assign`; the divergence is caused exactly by the shared
scratch. -/
theorem parallel_schedule_divergence_bug :
    (pRun msdModel chunkEx centersEx 6 schedRacy (pInit 2 11 2 6 dtrajEx)).dtraj
      = [0, 1, 1, 1, 1, 1, 1, 1, 1, 1, 1]
    ∧ (pRun msdModel chunkEx centersEx 6 schedSerial (pInit 1 11 2 6 dtrajEx)).dtraj
      = [1, 1, 1, 1, 1, 1, 1, 1, 1, 1, 0]
    ∧ (pRun msdModel chunkEx centersEx 6 schedClean (pInit 2 11 2 6 dtrajEx)).dtraj
      = [1, 1, 1, 1, 1, 1, 1, 1, 1, 1, 0]
    ∧ (c_assign msdModel chunkEx centersEx dtrajEx "minRMSD" 11 2 6 1 true true).dtraj
      = [1, 1, 1, 1, 1, 1, 1, 1, 1, 1, 0]
    ∧ ([0, 1, 1, 1, 1, 1, 1, 1, 1, 1, 1] : List ℤ) ≠ [1, 1, 1, 1, 1, 1, 1, 1, 1, 1, 0] := by
  refine ⟨?_, ?_, ?_, ?_, by decide⟩ <;> with_unfolding_all decide

/-! ## Claim C5 — Euclidean metric -/

/-- C5: the Euclidean metric returns the square root of the sum of the
squared per-component differences — the loop accumulation equals the
mathematical sum and the modelled square root agrees with the true rational
square root on the stated domain (the exact-rational accumulator stands for
the C code's double-precision accumulator); on the spec's concrete case
`frames = [[0,0]]`, `centers = [[0,0],[3,4]]` the distances are 0 and 5 and
the assigned index is 0. -/
theorem euclidean_metric_spec :
    (∀ (a b : List ℚ) (n : ℕ),
      (∑ i ∈ Finset.range n,
        (a.getD i 0 - b.getD i 0) * (a.getD i 0 - b.getD i 0)).num.toNat < 4 ^ 132 →
      (∑ i ∈ Finset.range n,
        (a.getD i 0 - b.getD i 0) * (a.getD i 0 - b.getD i 0)).den < 4 ^ 132 →
      euclidean_distance a b n =
        Rat.sqrt (∑ i ∈ Finset.range n,
          (a.getD i 0 - b.getD i 0) * (a.getD i 0 - b.getD i 0)))
    ∧ euclidean_distance [0, 0] [0, 0] 2 = 0
    ∧ euclidean_distance [0, 0] [3, 4] 2 = 5
    ∧ (c_assign msdModel [0, 0] [0, 0, 3, 4] [7] "euclidean" 1 2 2 1 true true).dtraj = [0] := by
  refine ⟨?_, ?_, ?_, ?_⟩
  · intro a b n hn hd
    rw [euclidean_distance_eq_sum]
    exact ratSqrt_eq_sqrt _ hn hd
  · with_unfolding_all decide
  · with_unfolding_all decide
  · with_unfolding_all decide

/-- Witness for `euclidean_metric_spec` at `[0,0]` vs `[3,4]`. -/
theorem euclidean_metric_spec_witness :
    ((∑ i ∈ Finset.range 2,
        (([0, 0] : List ℚ).getD i 0 - ([3, 4] : List ℚ).getD i 0)
          * (([0, 0] : List ℚ).getD i 0 - ([3, 4] : List ℚ).getD i 0)).num.toNat < 4 ^ 132)
    ∧ euclidean_distance [0, 0] [3, 4] 2 =
        Rat.sqrt (∑ i ∈ Finset.range 2,
          (([0, 0] : List ℚ).getD i 0 - ([3, 4] : List ℚ).getD i 0)
            * (([0, 0] : List ℚ).getD i 0 - ([3, 4] : List ℚ).getD i 0)) :=
  ⟨by with_unfolding_all decide,
   euclidean_metric_spec.1 [0, 0] [3, 4] 2 (by with_unfolding_all decide)
     (by with_unfolding_all decide)⟩

/-! ## Claim C6 — minRMSD procedure -/

/-- C6 (external geometry modelled from the spec): `minRMSD_distance` works
on copies of its read-only inputs (`a.take n`, `b.take n` — the returned
scratch contents are functions of the copies, and `a`, `b` are values the
function cannot mutate), centers each copy at its own centroid (each
coordinate axis of a centered copy sums to zero over the atoms) while
recording the pre-translation trace of its second-moment matrix (the sum of
squared coordinates), computes the minimal MSD of the two centered sets via
the external `msd_atom_major`, and returns its square root. -/
theorem minRMSD_procedure_spec (msd : MsdFn) (a b : List ℚ) (n : ℕ)
    (h3 : n % 3 = 0) (hpos : 0 < n) :
    (minRMSD_distance msd a b n).1 =
      ratSqrt (msd (n / 3) (n / 3)
        (inplace_center_and_trace_atom_major (a.take n) (n / 3)).1
        (inplace_center_and_trace_atom_major (b.take n) (n / 3)).1
        (inplace_center_and_trace_atom_major (a.take n) (n / 3)).2
        (inplace_center_and_trace_atom_major (b.take n) (n / 3)).2)
    ∧ (minRMSD_distance msd a b n).2.1 =
        (inplace_center_and_trace_atom_major (a.take n) (n / 3)).1
    ∧ (minRMSD_distance msd a b n).2.2 =
        (inplace_center_and_trace_atom_major (b.take n) (n / 3)).1
    ∧ (∀ c, c < 3 →
        ∑ j ∈ Finset.range (n / 3),
          (inplace_center_and_trace_atom_major (a.take n) (n / 3)).1.getD (3 * j + c) 0 = 0)
    ∧ (∀ c, c < 3 →
        ∑ j ∈ Finset.range (n / 3),
          (inplace_center_and_trace_atom_major (b.take n) (n / 3)).1.getD (3 * j + c) 0 = 0)
    ∧ (inplace_center_and_trace_atom_major (a.take n) (n / 3)).2 =
        ∑ t ∈ Finset.range (3 * (n / 3)), (a.take n).getD t 0 * (a.take n).getD t 0
    ∧ (inplace_center_and_trace_atom_major (b.take n) (n / 3)).2 =
        ∑ t ∈ Finset.range (3 * (n / 3)), (b.take n).getD t 0 * (b.take n).getD t 0 := by
  have hk : 0 < n / 3 := by omega
  exact ⟨rfl, rfl, rfl,
    fun c hc => center_centroid_zero _ _ c hk hc,
    fun c hc => center_centroid_zero _ _ c hk hc,
    center_trace_eq_sum _ _,
    center_trace_eq_sum _ _⟩

/-- Witness for `minRMSD_procedure_spec` at two concrete 2-atom vectors. -/
theorem minRMSD_procedure_spec_witness :
    ((6 : ℕ) % 3 = 0 ∧ (0 : ℕ) < 6)
    ∧ (minRMSD_distance msdModel [1, 0, 0, -1, 0, 0] [3, 0, 0, -3, 0, 0] 6).1 =
        ratSqrt (msdModel 2 2
          (inplace_center_and_trace_atom_major (([1, 0, 0, -1, 0, 0] : List ℚ).take 6) 2).1
          (inplace_center_and_trace_atom_major (([3, 0, 0, -3, 0, 0] : List ℚ).take 6) 2).1
          (inplace_center_and_trace_atom_major (([1, 0, 0, -1, 0, 0] : List ℚ).take 6) 2).2
          (inplace_center_and_trace_atom_major (([3, 0, 0, -3, 0, 0] : List ℚ).take 6) 2).2) :=
  ⟨⟨rfl, by norm_num⟩,
   (minRMSD_procedure_spec msdModel [1, 0, 0, -1, 0, 0] [3, 0, 0, -3, 0, 0] 6 rfl
     (by norm_num)).1⟩

/-! ## Claim C7 — invalid metric -/

/-- C7: a metric name other than `"euclidean"` or `"minRMSD"`
(case-sensitive `strcmp`) makes the call fail with
`ASSIGN_ERR_INVALID_METRIC` before any work: no scratch buffer is ever
allocated, no frame is processed, and the output buffer is returned exactly
as it was. -/
theorem invalid_metric_fail_fast_spec (msd : MsdFn) (chunk centers : List ℚ)
    (dtraj : List ℤ) (metric : String) (nf nc dim t : ℕ) (a b : Bool)
    (h1 : metric ≠ "euclidean") (h2 : metric ≠ "minRMSD") :
    c_assign msd chunk centers dtraj metric nf nc dim t a b =
      ⟨.errInvalidMetric, dtraj, 0, 0⟩ :=
  c_assign_invalid_eq msd chunk centers dtraj metric nf nc dim t a b h1 h2

/-- Witness for `invalid_metric_fail_fast_spec` at `metric = "unknown"`. -/
theorem invalid_metric_fail_fast_spec_witness :
    (("unknown" : String) ≠ "euclidean" ∧ ("unknown" : String) ≠ "minRMSD")
    ∧ c_assign msdModel [0] [0] [7] "unknown" 1 1 1 1 true true =
        ⟨.errInvalidMetric, [7], 0, 0⟩ :=
  ⟨⟨by decide, by decide⟩,
   invalid_metric_fail_fast_spec msdModel [0] [0] [7] "unknown" 1 1 1 1 true true
     (by decide) (by decide)⟩

/-! ## Claim C8 — scratch allocation failure -/

/-- C8: if either scratch `malloc` fails on a `"minRMSD"` call, the call
returns `ASSIGN_ERR_NO_MEMORY` before any frame is processed, the output
buffer is untouched, and no scratch buffer stays allocated on return (the
`error:` label frees both pointers; `free(NULL)` is a no-op). -/
theorem out_of_memory_fail_fast_spec (msd : MsdFn) (chunk centers : List ℚ)
    (dtraj : List ℤ) (nf nc dim t : ℕ) (alloc_a alloc_b : Bool)
    (h : alloc_a = false ∨ alloc_b = false) :
    (c_assign msd chunk centers dtraj "minRMSD" nf nc dim t alloc_a alloc_b).ret = .errNoMemory
    ∧ (c_assign msd chunk centers dtraj "minRMSD" nf nc dim t alloc_a alloc_b).dtraj = dtraj
    ∧ (c_assign msd chunk centers dtraj "minRMSD" nf nc dim t alloc_a alloc_b).liveBuffers
        = 0 := by
  rw [c_assign_noMemory_eq msd chunk centers dtraj nf nc dim t alloc_a alloc_b h]
  exact ⟨rfl, rfl, rfl⟩

/-- Witness for `out_of_memory_fail_fast_spec` with the first `malloc`
failing. -/
theorem out_of_memory_fail_fast_spec_witness :
    ((false = false ∨ true = false))
    ∧ (c_assign msdModel [0] [0] [7] "minRMSD" 1 1 1 1 false true).ret = .errNoMemory
    ∧ (c_assign msdModel [0] [0] [7] "minRMSD" 1 1 1 1 false true).dtraj = [7]
    ∧ (c_assign msdModel [0] [0] [7] "minRMSD" 1 1 1 1 false true).liveBuffers = 0 :=
  ⟨Or.inl rfl,
   out_of_memory_fail_fast_spec msdModel [0] [0] [7] 1 1 1 1 false true (Or.inl rfl)⟩

/-! ## Claim C9 — single-center case -/

/-- C9 (amended): with `N_centers = 1` a successful call writes index 0 into
every output slot, *provided each frame's distance to the single center is
strictly below `FLT_MAX`* — which holds for all frames of moderate
magnitude, regardless of their contents. (The frozen claim has no proviso;
`single_center_counterexample` shows it is necessary.) -/
theorem single_center_all_zero_spec (msd : MsdFn) (chunk centers : List ℚ)
    (dtraj : List ℤ) (metric : String) (nf dim t : ℕ) (a b : Bool)
    (hres : metric = "euclidean" ∨ (metric = "minRMSD" ∧ a = true ∧ b = true))
    (hlen : dtraj.length = nf)
    (hdist : ∀ i, i < nf → metricDist msd metric chunk centers dim i 0 < fltMax) :
    ∀ i, i < nf →
      (c_assign msd chunk centers dtraj metric nf 1 dim t a b).dtraj[i]? = some 0 := by
  intro i hi
  obtain ⟨-, hout⟩ := c_assign_success_out msd chunk centers dtraj metric nf 1 dim t a b hres
  rw [hout, assignOut_getElem? _ _ _ _ i hi (by omega)]
  have hit : ∃ j, j < 1 ∧
      fltLt ((fun j => some (metricDist msd metric chunk centers dim i j)) j) fltMax = true :=
    ⟨0, by norm_num, fltLt_of_lt _ _ (hdist i hi)⟩
  have harg := scanCenters_hit _ _ hit
  have h0 : (scanCenters (fun j => some (metricDist msd metric chunk centers dim i j)) 1).2
      = 0 := by omega
  rw [h0]
  rfl

/-- Witness for `single_center_all_zero_spec`: two frames, one center. -/
theorem single_center_all_zero_spec_witness :
    (("euclidean" = "euclidean" ∨ ("euclidean" = "minRMSD" ∧ true = true ∧ true = true))
      ∧ ([7, 7] : List ℤ).length = 2
      ∧ (∀ i, i < 2 → metricDist msdModel "euclidean" [5, 6] [1] 1 i 0 < fltMax))
    ∧ ∀ i, i < 2 →
        (c_assign msdModel [5, 6] [1] [7, 7] "euclidean" 2 1 1 1 true true).dtraj[i]? =
          some 0 := by
  have hdist : ∀ i, i < 2 → metricDist msdModel "euclidean" [5, 6] [1] 1 i 0 < fltMax := by
    intro i hi
    have hi01 : i = 0 ∨ i = 1 := by omega
    rcases hi01 with h | h <;> subst h <;> with_unfolding_all decide
  exact ⟨⟨Or.inl rfl, rfl, hdist⟩,
    single_center_all_zero_spec msdModel [5, 6] [1] [7, 7] "euclidean" 2 1 1 true true
      (Or.inl rfl) rfl hdist⟩

/-- C9 counterexample: two frames `[2^127]` with the single center
`[-2^127]` (valid `float32` data, `N_centers = 1`) produce `[-1, -1]`, not
all zeros: both distances (`2^128`, an overflow to `+inf` in the C program)
fail the strict comparison against `FLT_MAX`. -/
theorem single_center_counterexample :
    (c_assign msdModel
      [170141183460469231731687303715884105728, 170141183460469231731687303715884105728]
      [-170141183460469231731687303715884105728]
      [7, 7] "euclidean" 2 1 1 1 true true).dtraj = [-1, -1]
    ∧ ([-1, -1] : List ℤ) ≠ [0, 0] := by
  have hq : (170141183460469231731687303715884105728 : ℚ)
      = ((170141183460469231731687303715884105728 : ℕ) : ℚ) := by norm_num
  refine ⟨?_, by decide⟩
  rw [c_assign_euclidean_dtraj, assignOut_two]
  have hmiss : ∀ i : ℕ, i < 2 → ∀ j, j < 1 →
      fltLt ((fun j => some (euclidean_distance
        (frameOf [(170141183460469231731687303715884105728 : ℚ),
          (170141183460469231731687303715884105728 : ℚ)] 1 i)
        (frameOf [-(170141183460469231731687303715884105728 : ℚ)] 1 j) 1)) j) fltMax
        = false := by
    intro i hi j hj
    have hj0 : j = 0 := by omega
    subst hj0
    have hcen : frameOf [-(170141183460469231731687303715884105728 : ℚ)] 1 0
        = [-((170141183460469231731687303715884105728 : ℕ) : ℚ)] := by
      rw [hq]
      rfl
    have hfr : frameOf [(170141183460469231731687303715884105728 : ℚ),
        (170141183460469231731687303715884105728 : ℚ)] 1 i
        = [((170141183460469231731687303715884105728 : ℕ) : ℚ)] := by
      have hi01 : i = 0 ∨ i = 1 := by omega
      rcases hi01 with h | h <;> subst h <;> rw [hq] <;> rfl
    show fltLt (some (euclidean_distance _ _ 1)) fltMax = false
    rw [hcen, hfr, euclid_opposite _ (by norm_num)]
    refine fltLt_of_le _ _ ?_
    unfold fltMax
    push_cast
    norm_num
  rw [scanCenters_miss _ _ (hmiss 0 (by norm_num)), scanCenters_miss _ _ (hmiss 1 (by norm_num))]
  rw [show (fltMax, sizeMax).2 = sizeMax from rfl, toInt32_sizeMax]
  rfl

/-! ## Claim C10 — all-incomparable frame writes −1 -/

/-- C10: if for some frame no center's distance compares strictly below
`FLT_MAX` (NaN distances — `none` — compare false, as do values `≥ FLT_MAX`),
then no best-index update ever occurs for that frame: the scan ends at the
initial `argmin = (size_t)-1 = 2^64 - 1`, whose `int32` truncation `-1` is
written into that frame's output slot — an index outside `[0, N_centers)`.
Concretely, frames `[[2^127], [-2^127]]` with center `[-2^127]` yield
`[-1, 0]`: the first frame's distance (`+inf` in the program, whose
single-precision subtraction overflows; exactly `2^128` in the model) fails
the strict comparison against `FLT_MAX` in both, while the second frame
coincides with the center, so its distance is exactly `0` in both. -/
theorem no_update_writes_minus_one_spec :
    (∀ (dist : ℕ → FVal) (n : ℕ),
      (∀ j, j < n → fltLt (dist j) fltMax = false) →
      (scanCenters dist n).2 = sizeMax ∧ toInt32 (scanCenters dist n).2 = -1)
    ∧ (∀ (msd : MsdFn) (chunk centers : List ℚ) (dtraj : List ℤ) (metric : String)
        (nf nc dim t : ℕ) (a b : Bool) (i : ℕ),
        (metric = "euclidean" ∨ (metric = "minRMSD" ∧ a = true ∧ b = true)) →
        dtraj.length = nf → i < nf →
        (∀ j, j < nc → fltMax ≤ metricDist msd metric chunk centers dim i j) →
        (c_assign msd chunk centers dtraj metric nf nc dim t a b).dtraj[i]? = some (-1))
    ∧ toInt32 sizeMax = -1
    ∧ (c_assign msdModel [170141183460469231731687303715884105728,
          -170141183460469231731687303715884105728]
        [-170141183460469231731687303715884105728]
        [7, 7] "euclidean" 2 1 1 1 true true).dtraj = [-1, 0] := by
  refine ⟨?_, ?_, toInt32_sizeMax, ?_⟩
  · intro dist n hmiss
    rw [scanCenters_miss _ _ hmiss]
    exact ⟨rfl, toInt32_sizeMax⟩
  · intro msd chunk centers dtraj metric nf nc dim t a b i hres hlen hi hbad
    obtain ⟨-, hout⟩ := c_assign_success_out msd chunk centers dtraj metric nf nc dim t a b hres
    rw [hout, assignOut_getElem? _ _ _ _ i hi (by omega)]
    have hmiss : ∀ j, j < nc →
        fltLt ((fun j => some (metricDist msd metric chunk centers dim i j)) j) fltMax
          = false :=
      fun j hj => fltLt_of_le _ _ (hbad j hj)
    rw [scanCenters_miss _ _ hmiss]
    rw [show (fltMax, sizeMax).2 = sizeMax from rfl, toInt32_sizeMax]
  · have hq : (170141183460469231731687303715884105728 : ℚ)
        = ((170141183460469231731687303715884105728 : ℕ) : ℚ) := by norm_num
    rw [c_assign_euclidean_dtraj, assignOut_two]
    have hcen : frameOf [-(170141183460469231731687303715884105728 : ℚ)] 1 0
        = [-((170141183460469231731687303715884105728 : ℕ) : ℚ)] := by
      rw [hq]
      rfl
    have hmiss0 : ∀ j, j < 1 →
        fltLt ((fun j => some (euclidean_distance
          (frameOf [(170141183460469231731687303715884105728 : ℚ),
            -(170141183460469231731687303715884105728 : ℚ)] 1 0)
          (frameOf [-(170141183460469231731687303715884105728 : ℚ)] 1 j) 1)) j) fltMax
          = false := by
      intro j hj
      have hj0 : j = 0 := by omega
      subst hj0
      have hfr : frameOf [(170141183460469231731687303715884105728 : ℚ),
            -(170141183460469231731687303715884105728 : ℚ)] 1 0
          = [((170141183460469231731687303715884105728 : ℕ) : ℚ)] := by
        rw [hq]
        rfl
      show fltLt (some (euclidean_distance _ _ 1)) fltMax = false
      rw [hcen, hfr, euclid_opposite _ (by norm_num)]
      refine fltLt_of_le _ _ ?_
      unfold fltMax
      push_cast
      norm_num
    have hdist1 : euclidean_distance
        (frameOf [(170141183460469231731687303715884105728 : ℚ),
            -(170141183460469231731687303715884105728 : ℚ)] 1 1)
        (frameOf [-(170141183460469231731687303715884105728 : ℚ)] 1 0) 1
        = 0 := by
      have hfr : frameOf [(170141183460469231731687303715884105728 : ℚ),
            -(170141183460469231731687303715884105728 : ℚ)] 1 1
          = [-((170141183460469231731687303715884105728 : ℕ) : ℚ)] := by
        rw [hq]
        rfl
      rw [hcen, hfr]
      exact euclid_self [-((170141183460469231731687303715884105728 : ℕ) : ℚ)] 1
    have hscan1 : (scanCenters (fun j => some (euclidean_distance
        (frameOf [(170141183460469231731687303715884105728 : ℚ),
            -(170141183460469231731687303715884105728 : ℚ)] 1 1)
        (frameOf [-(170141183460469231731687303715884105728 : ℚ)] 1 j) 1)) 1).2 = 0 := by
      have hit : ∃ j, j < 1 ∧
          fltLt ((fun j => some (euclidean_distance
            (frameOf [(170141183460469231731687303715884105728 : ℚ),
            -(170141183460469231731687303715884105728 : ℚ)] 1 1)
            (frameOf [-(170141183460469231731687303715884105728 : ℚ)] 1 j) 1)) j) fltMax
            = true := by
        refine ⟨0, by norm_num, ?_⟩
        show fltLt (some (euclidean_distance _ _ 1)) fltMax = true
        rw [hdist1]
        refine fltLt_of_lt _ _ ?_
        unfold fltMax
        norm_num
      have := scanCenters_hit _ _ hit
      omega
    rw [scanCenters_miss _ _ hmiss0, hscan1]
    rw [show (fltMax, sizeMax).2 = sizeMax from rfl, toInt32_sizeMax]
    rfl

/-- Witness for `no_update_writes_minus_one_spec`: the all-NaN distance
function — no comparison succeeds, the initial `(size_t)-1` survives and is
truncated to `-1`. -/
theorem no_update_writes_minus_one_spec_witness :
    (∀ j, j < 3 → fltLt ((fun _ : ℕ => (none : FVal)) j) fltMax = false)
    ∧ (scanCenters (fun _ : ℕ => (none : FVal)) 3).2 = sizeMax
    ∧ toInt32 (scanCenters (fun _ : ℕ => (none : FVal)) 3).2 = -1 := by
  have hmiss : ∀ j, j < 3 → fltLt ((fun _ : ℕ => (none : FVal)) j) fltMax = false :=
    fun j hj => rfl
  exact ⟨hmiss, (no_update_writes_minus_one_spec.1 (fun _ => none) 3 hmiss).1,
    (no_update_writes_minus_one_spec.1 (fun _ => none) 3 hmiss).2⟩

end Clustering
